import Mathlib

/-!
Verification of the job-submission core of a command-line pipeline client
(package `cli`, file `scripts.go`).  The Go source is embedded shallowly:
pure functions become Lean functions, the stateful job-request population
becomes explicit state passing, and the orchestrator's interactions with
the remote service are recorded as an explicit event trace.  Go standard
library collaborators (`strconv`, `net/url`, `path/filepath`, `os.Stat`)
are modelled at their interface; the model of `net/url` covers scheme /
authority / opaque / path splitting and RFC 3986 path resolution, omitting
percent-escaping, query, fragment and user-info components, which the
client never exercises.
-/

namespace PipelineCli

/-! ## Go standard-library model: strconv -/

/-- Model of Go `strconv.FormatBool`. -/
def formatBool (b : Bool) : String := if b then "true" else "false"

/-- Model of Go `strconv.ParseBool`: accepts exactly the twelve literal forms. -/
def parseBool (s : String) : Except String Bool :=
  match s with
  | "1" | "t" | "T" | "true" | "TRUE" | "True" => .ok true
  | "0" | "f" | "F" | "false" | "FALSE" | "False" => .ok false
  | _ => .error ("strconv.ParseBool: parsing \"" ++ s ++ "\": invalid syntax")

/-- Model of Go `lower(c byte) = c | ('x' - 'X')` from strconv. -/
def goLower (c : Char) : Char := Char.ofNat (c.toNat % 256 ||| 0x20)

/-- Is `c` an ASCII decimal digit? -/
def isDig (c : Char) : Bool := '0' ≤ c ∧ c ≤ '9'

/-- The loop of Go strconv's `underscoreOK`.  `saw` is the character class of
the previously read character: `'^'` start, `'0'` digit, `'_'` underscore,
`'!'` anything else. -/
def underscoreOKLoop (hex : Bool) : List Char → Char → Bool
  | [], saw => saw ≠ '_'
  | c :: rest, saw =>
    if isDig c ∨ (hex ∧ 'a' ≤ goLower c ∧ goLower c ≤ 'f') then
      underscoreOKLoop hex rest '0'
    else if c = '_' then
      if saw ≠ '0' then false else underscoreOKLoop hex rest '_'
    else if saw = '_' then false
    else underscoreOKLoop hex rest '!'

/-- Model of Go strconv `underscoreOK`: underscores must separate successive
digits (the base prefix counting as a digit). -/
def underscoreOK (s : List Char) : Bool :=
  let s := match s with
    | c :: rest => if c = '-' ∨ c = '+' then rest else c :: rest
    | [] => []
  match s with
  | c0 :: c1 :: rest =>
    if c0 = '0' ∧ (goLower c1 = 'b' ∨ goLower c1 = 'o' ∨ goLower c1 = 'x') then
      underscoreOKLoop (goLower c1 = 'x') rest '0'
    else underscoreOKLoop false (c0 :: c1 :: rest) '^'
  | s => underscoreOKLoop false s '^'

inductive NumErr where
  | invalidSyntax
  | outOfRange
  deriving Repr, DecidableEq

def maxUint64 : Nat := 2 ^ 64 - 1

/-- Digit-accumulation loop of Go `strconv.ParseUint` (bitSize 64).  `base0`
tells whether the base was auto-detected (base argument 0), which is the only
case where underscores are skipped.  Returns the value and whether an
underscore was seen. -/
def parseUintLoop (base : Nat) (base0 : Bool) : List Char → Nat → Bool →
    Except NumErr (Nat × Bool)
  | [], n, saw => .ok (n, saw)
  | c :: rest, n, saw =>
    if c = '_' ∧ base0 then parseUintLoop base base0 rest n true
    else
      let d? : Option Nat :=
        if isDig c then some (c.toNat - '0'.toNat)
        else if 'a' ≤ goLower c ∧ goLower c ≤ 'z' then
          some ((goLower c).toNat - 'a'.toNat + 10)
        else none
      match d? with
      | none => .error .invalidSyntax
      | some d =>
        if d ≥ base then .error .invalidSyntax
        else if n ≥ maxUint64 / base + 1 then .error .outOfRange
        else
          let n1 := n * base + d
          if n1 > maxUint64 then .error .outOfRange
          else parseUintLoop base base0 rest n1 saw

/-- Model of Go `strconv.ParseUint(s, 0, 64)`: detect the base from a `0b` /
`0o` / `0x` / leading-`0` prefix, accumulate digits, then check underscore
placement. -/
def parseUintBase0 (s0 : List Char) : Except NumErr Nat :=
  match s0 with
  | [] => .error .invalidSyntax
  | _ =>
    let (base, s) :=
      match s0 with
      | '0' :: c1 :: rest =>
        if goLower c1 = 'b' ∧ rest ≠ [] then (2, rest)
        else if goLower c1 = 'o' ∧ rest ≠ [] then (8, rest)
        else if goLower c1 = 'x' ∧ rest ≠ [] then (16, rest)
        else (8, c1 :: rest)
      | s => (10, s)
    match parseUintLoop base true s 0 false with
    | .error e => .error e
    | .ok (n, saw) =>
      if saw ∧ ¬ underscoreOK s0 then .error .invalidSyntax else .ok n

/-- Model of Go `strconv.ParseInt(s, 0, 0)` on a 64-bit platform, keeping only
the error (the call site discards the parsed value).  `none` means success. -/
def parseIntErr (s : String) : Option String :=
  let cs := s.toList
  match cs with
  | [] => some ("strconv.ParseInt: parsing \"" ++ s ++ "\": invalid syntax")
  | c :: rest =>
    let (neg, digits) :=
      if c = '+' then (false, rest)
      else if c = '-' then (true, rest)
      else (false, cs)
    match parseUintBase0 digits with
    | .error .invalidSyntax =>
      some ("strconv.ParseInt: parsing \"" ++ s ++ "\": invalid syntax")
    | .error .outOfRange =>
      some ("strconv.ParseInt: parsing \"" ++ s ++ "\": value out of range")
    | .ok un =>
      if ¬ neg ∧ un ≥ 2 ^ 63 then
        some ("strconv.ParseInt: parsing \"" ++ s ++ "\": value out of range")
      else if neg ∧ un > 2 ^ 63 then
        some ("strconv.ParseInt: parsing \"" ++ s ++ "\": value out of range")
      else none

/-! ## Go standard-library model: path/filepath and strings -/

/-- Model of Go `filepath.ToSlash`, parametrised by the OS path separator
(`filepath.Separator` is a per-OS compile-time constant): replaces each
separator character with `'/'`; the identity when the separator is `'/'`. -/
def filepathToSlash (sep : Char) (path : String) : String :=
  if sep = '/' then path
  else String.mk (path.toList.map (fun c => if c = sep then '/' else c))

/-- Model of Go `strings.HasPrefix(s, pre)`. -/
def strHasPre (s pre : String) : Bool := pre.toList.isPrefixOf s.toList

/-- Accumulating loop of `splitChar`. -/
def splitCharAux (sep : Char) : List Char → List Char → List String
  | [], acc => [String.mk acc]
  | c :: rest, acc =>
    if c = sep then String.mk acc :: splitCharAux sep rest []
    else splitCharAux sep rest (acc ++ [c])

/-- Model of Go `strings.Split(s, sep)` for a one-character separator (the
only shape the client uses): `""` yields `[""]`, empty fields are kept. -/
def splitChar (sep : Char) (s : String) : List String := splitCharAux sep s.toList []

/-- Join a list of strings with a separator (Go `strings.Join`). -/
def joinWith (sep : String) : List String → String
  | [] => ""
  | [x] => x
  | x :: y :: rest => x ++ sep ++ joinWith sep (y :: rest)

/-! ## Go standard-library model: net/url -/

/-- The fields of Go `url.URL` that this client reads (user-info, query and
fragment are never populated by the inputs it builds). -/
structure URL where
  scheme : String
  opq : String
  host : String
  path : String
  deriving Repr, DecidableEq

/-- Model of Go `url.getScheme`: an initial run of scheme characters (first
one a letter) up to a `':'`.  `none` means the raw string has no scheme and is
parsed in full as the remainder. -/
def getSchemeLoop : List Char → List Char → Option (String × List Char)
  | [], _ => none
  | c :: rest, acc =>
    if c.isAlpha then getSchemeLoop rest (acc ++ [c])
    else if c.isDigit ∨ c = '+' ∨ c = '-' ∨ c = '.' then
      if acc = [] then none else getSchemeLoop rest (acc ++ [c])
    else if c = ':' then
      if acc = [] then none else some (String.mk acc, rest)
    else none

/-- Model of Go `url.Parse` restricted to scheme / authority / opaque / path
splitting (no percent-decoding, query, fragment or user-info; the rare parse
errors of the Go original, such as a bare leading colon, are out of the
modelled domain). -/
def urlParse (raw : String) : URL :=
  let (scheme, rest) :=
    match getSchemeLoop raw.toList [] with
    | some (sch, r) => (String.mk (sch.toList.map Char.toLower), r)
    | none => ("", raw.toList)
  if rest.take 2 = ['/', '/'] then
    let after := rest.drop 2
    let host := after.takeWhile (· ≠ '/')
    let path := after.dropWhile (· ≠ '/')
    { scheme := scheme, opq := "", host := String.mk host, path := String.mk path }
  else if scheme ≠ "" ∧ rest ≠ [] ∧ rest.head? ≠ some '/' then
    { scheme := scheme, opq := String.mk rest, host := "", path := "" }
  else
    { scheme := scheme, opq := "", host := "", path := String.mk rest }

/-- Index of the last `'/'` in a character list, if any. -/
def lastSlashIdx (cs : List Char) : Option Nat :=
  ((cs.enum.filter (fun p => p.2 = '/')).getLast?).map (fun p => p.1)

/-- The cleaning loop of Go `url.resolvePath`, transliterated: `dst` starts as
`"/"`, `first` tracks whether a segment has been written, `lastElem` is the
segment seen most recently. -/
def resolvePathLoop : List String → List Char → Bool → String → List Char
  | [], dst, _, lastElem =>
    let dst := if lastElem = "." ∨ lastElem = ".." then dst ++ ['/'] else dst
    match dst with
    | c0 :: c1 :: rest => if c1 = '/' then c1 :: rest else c0 :: c1 :: rest
    | dst => dst
  | elem :: rest, dst, first, _ =>
    if elem = "." then resolvePathLoop rest dst false elem
    else if elem = ".." then
      let str := dst.drop 1
      match lastSlashIdx str with
      | none => resolvePathLoop rest ['/'] true elem
      | some i => resolvePathLoop rest ('/' :: str.take i) first elem
    else
      let dst := if ¬ first then dst ++ '/' :: elem.toList else dst ++ elem.toList
      resolvePathLoop rest dst false elem

/-- Model of Go `url.resolvePath(base, ref)`: merge the reference path with
the base path and remove dot segments (RFC 3986 §5.2). -/
def resolvePath (base ref : String) : String :=
  let full :=
    if ref = "" then base
    else if ref.front ≠ '/' ∨ ref = "" then
      (match lastSlashIdx base.toList with
       | none => ""
       | some i => String.mk (base.toList.take (i + 1))) ++ ref
    else ref
  if full = "" then ""
  else String.mk (resolvePathLoop (splitChar '/' full) ['/'] true "")

/-- Model of Go `url.URL.ResolveReference` on the modelled fields. -/
def resolveReference (u ref : URL) : URL :=
  let scheme := if ref.scheme = "" then u.scheme else ref.scheme
  if ref.scheme ≠ "" ∨ ref.host ≠ "" then
    { scheme := scheme, opq := ref.opq, host := ref.host,
      path := resolvePath ref.path "" }
  else if ref.opq ≠ "" then
    { scheme := scheme, opq := ref.opq, host := "", path := "" }
  else
    { scheme := scheme, opq := "", host := u.host,
      path := resolvePath u.path ref.path }

/-- Model of Go `url.URL.String` on the modelled fields. -/
def URL.render (u : URL) : String :=
  (if u.scheme ≠ "" then u.scheme ++ ":" else "")
    ++ (if u.opq ≠ "" then u.opq
        else
          (if u.scheme ≠ "" ∨ u.host ≠ "" then
            (if u.host ≠ "" ∨ u.path ≠ "" then "//" else "") ++ u.host
           else "")
            ++ (if u.path ≠ "" ∧ u.path.front ≠ '/' ∧ u.host ≠ "" then "/" else "")
            ++ u.path)

/-- Model of Go `url.URL.IsAbs`. -/
def URL.isAbs (u : URL) : Bool := u.scheme ≠ ""

/-! ## Execution environment (external collaborators of `scripts.go`) -/

/-- Outcome of an `os.Stat` call that failed: the error text and whether
`os.IsNotExist` holds for it. -/
structure StatErr where
  msg : String
  notExist : Bool
  deriving Repr, DecidableEq

/-- The ambient collaborators a script command reads: whether the service
link accepts local `file:` URIs (`link.IsLocal()`), the working directory
(`os.Getwd`), the OS path separator (`filepath.Separator`), the filesystem
(`os.Stat`: `none` means the stat succeeded), and the regexp engine
(`regexp.MatchString pattern value`, whose error is a pattern-compilation
failure). -/
structure Env where
  isLocal : Bool
  cwd : String
  sep : Char
  stat : String → Option StatErr
  matchString : String → String → Except String Bool

/-- Embeds `getBasePath` of scripts.go: the working directory plus `"/"` when
the framework accepts local URIs, otherwise the empty string. -/
def getBasePath (env : Env) : String :=
  if env.isLocal then env.cwd ++ "/" else ""

/-- Embeds `pathToUri` of scripts.go.  With a non-empty base path (local
mode) it builds a `file:` base URL, resolves the slash-normalized path
against it, then checks existence with `os.Stat` — an `IsNotExist` failure is
returned, any other stat outcome clears the error — and finally requires the
resolved URL to be an absolute `file:` URL.  With an empty base path (remote
mode) it wraps the slash-normalized path as an opaque reference.  Returns the
URL together with the error, as the Go original's `(u, err)` pair. -/
def pathToUri (path basePath : String) (env : Env) : URL × Option String :=
  if basePath ≠ "" then
    let basePath := if basePath.front ≠ '/' then "/" ++ basePath else basePath
    let baseUrl := urlParse ("file:" ++ basePath)
    let u := urlParse (filepathToSlash env.sep path)
    let u := resolveReference baseUrl u
    match env.stat path with
    | some e =>
      if e.notExist then (u, some e.msg)
      else if u.scheme ≠ "file" ∨ u.isAbs = false then (u, some "unexpected error")
      else (u, none)
    | none =>
      if u.scheme ≠ "file" ∨ u.isAbs = false then (u, some "unexpected error")
      else (u, none)
  else
    ({ scheme := "", opq := filepathToSlash env.sep path, host := "", path := "" }, none)

/-! ## The data-type dispatcher -/

/-- The closed variant set of `pipeline.DataType` as consumed by
`validateOption` (clientlib declarations): the `default:` arm of the Go
switch is `Other`. -/
inductive DataType where
  | XsBoolean
  | XsInteger
  | XsAnyURI
  | AnyFileURI
  | AnyDirURI
  | Pattern (pattern : String)
  | Choice (values : List DataType)
  | Value (value : String)
  | Other
  deriving Repr

/-- Modelled from the spec: `optionTypeToString` lives in a formatting file of
the `cli` package that is not under src/; per the spec the aggregated Choice
error "names the expected type".  This model renders each variant's name, a
Choice as the variants joined by a bar. -/
def optionTypeToString : DataType → String
  | .XsBoolean => "boolean"
  | .XsInteger => "integer"
  | .XsAnyURI => "anyURI"
  | .AnyFileURI => "anyFileURI"
  | .AnyDirURI => "anyDirURI"
  | .Pattern p => "pattern /" ++ p ++ "/"
  | .Choice vs => joinWith " | " (vs.attach.map fun x => optionTypeToString x.1)
  | .Value v => "'" ++ v ++ "'"
  | .Other => "value"
termination_by t => sizeOf t
decreasing_by
  simp_wf
  have h := List.sizeOf_lt_of_mem x.2
  omega

/-- Modelled from the spec: `uncolor` (not under src/) strips terminal
colour codes from a rendered type name; the names produced by the modelled
`optionTypeToString` carry no colour codes, so it is the identity on them. -/
def uncolor (s : String) : String := s

/-- The wrap applied by `validateOption`'s trailing `if err != nil` when a
case falls through with an error. -/
def wrapTypeErr (t : DataType) (e : String) : String :=
  "does not match " ++ uncolor (optionTypeToString t) ++ ": " ++ e

/-- The `for _, v := range t.Values` loop of the Choice case, applied to the
variants' already-computed `(result, err)` pairs: stop at the first success;
if none succeeds the loop ends holding the last variant's pair; with no
variants the pre-loop state `(value, nil)` survives. -/
def choiceScan (value : String) : List (String × Option String) → String × Option String
  | [] => (value, none)
  | [p] => p
  | p :: q :: rest => if p.2 = none then p else choiceScan value (q :: rest)

/-- Embeds `validateOption` of scripts.go: `result` starts as the raw value,
the switch on the declared type either normalizes it or produces an error;
the Pattern mismatch, Choice and Value arms return their error directly,
every other erroring arm falls through to the `wrapTypeErr` wrap. -/
def validateOption (value : String) (t : DataType) (env : Env) : String × Option String :=
  match t with
  | .XsBoolean =>
    match parseBool value with
    | .ok b => (formatBool b, none)
    | .error e => (value, some (wrapTypeErr .XsBoolean e))
  | .XsInteger =>
    match parseIntErr value with
    | none => (value, none)
    | some e => (value, some (wrapTypeErr .XsInteger e))
  | .XsAnyURI => (value, none)
  | .AnyFileURI =>
    match pathToUri value (getBasePath env) env with
    | (u, none) => (u.render, none)
    | (_, some e) => (value, some (wrapTypeErr .AnyFileURI e))
  | .AnyDirURI =>
    match pathToUri value (getBasePath env) env with
    | (u, none) => (u.render, none)
    | (_, some e) => (value, some (wrapTypeErr .AnyDirURI e))
  | .Pattern pat =>
    match env.matchString ("^(?:" ++ pat ++ ")$") value with
    | .error e => (value, some (wrapTypeErr (.Pattern pat) e))
    | .ok true => (value, none)
    | .ok false => (value, some ("does not match /" ++ pat ++ "/"))
  | .Choice vs =>
    let res := choiceScan value (vs.attach.map fun x => validateOption value x.1 env)
    match res.2 with
    | some _ =>
      (res.1, some ("does not match " ++ uncolor (optionTypeToString (.Choice vs))))
    | none => (res.1, none)
  | .Value v =>
    if v ≠ value then (value, some ("does not match '" ++ v ++ "'"))
    else (value, none)
  | .Other => (value, none)
termination_by sizeOf t
decreasing_by
  simp_wf
  have h := List.sizeOf_lt_of_mem x.2
  omega

/-- Embeds `validationError` of scripts.go. -/
def validationError (optionName value : String) (cause : Option String) : String :=
  let msg := "'" ++ value ++ "' is not allowed as the value for option --" ++ optionName
  match cause with
  | some c => msg ++ ": " ++ c
  | none => msg

/-! ## The job request and the argument handlers -/

/-- Embeds the `JobRequest` struct: the two maps are modelled extensionally
as functions from a name to the accumulated sequence (a Go map defaults to
the empty slice for an absent key). -/
structure JobRequest where
  script : String
  nicename : String
  priority : String
  options : String → List String
  inputs : String → List URL
  background : Bool

/-- Embeds `newJobRequest`: empty maps, zero values elsewhere. -/
def newJobRequest : JobRequest :=
  { script := "", nicename := "", priority := "",
    options := fun _ => [], inputs := fun _ => [], background := false }

/-- The key under which `inputFunc` stores, as the code computes it:
`strings.HasPrefix("i-", name)` with the arguments in source order. -/
def inputKey (name : String) : String :=
  if strHasPre "i-" name then name.drop 2 else name

/-- The key under which `optionFunc` stores, as the code computes it. -/
def optionKey (name : String) : String :=
  if strHasPre "x-" name then name.drop 2 else name

/-- The element loop of `inputFunc`: resolve each comma-separated path and
append it to the request's input sequence for `name`; a resolution error
aborts the loop, keeping the appends already made. -/
def inputLoop (name basePath : String) (env : Env) :
    List String → JobRequest → JobRequest × Option String
  | [], req => (req, none)
  | p :: rest, req =>
    match pathToUri p basePath env with
    | (_, some e) => (req, some e)
    | (u, none) =>
      inputLoop name basePath env rest
        { req with inputs := fun k => if k = name then req.inputs k ++ [u] else req.inputs k }

/-- Embeds the closure returned by `inputFunc`, acting on an explicit
request state. -/
def inputFunc (env : Env) (name value : String) (req : JobRequest) :
    JobRequest × Option String :=
  let basePath := getBasePath env
  let name := inputKey name
  inputLoop name basePath env (splitChar ',' value) req

/-- The element loop of `optionFunc` for a sequence-typed option: validate
each comma-separated element and append the normalization; a failing element
aborts with `validationError`, keeping the appends already made. -/
def optionLoop (name : String) (t : DataType) (env : Env) :
    List String → JobRequest → JobRequest × Option String
  | [], req => (req, none)
  | v :: rest, req =>
    match validateOption v t env with
    | (v1, some e) => (req, some (validationError name v1 (some e)))
    | (v1, none) =>
      optionLoop name t env rest
        { req with options := fun k => if k = name then req.options k ++ [v1] else req.options k }

/-- Embeds the closure returned by `optionFunc`, acting on an explicit
request state. -/
def optionFunc (t : DataType) (sequence : Bool) (env : Env) (name value : String)
    (req : JobRequest) : JobRequest × Option String :=
  let name := optionKey name
  if sequence then
    optionLoop name t env (splitChar ',' value) req
  else
    match validateOption value t env with
    | (v1, some e) => (req, some (validationError name v1 (some e)))
    | (v1, none) =>
      ({ req with options := fun k => if k = name then req.options k ++ [v1] else req.options k },
       none)

/-! ## Flag naming -/

/-- The `subcommand.Flag` fields read by `flagsToString`. -/
structure Flag where
  long : String
  deriving Repr, DecidableEq

/-- Embeds `commonFlags` of scripts.go (note: seven entries, no `--data`). -/
def commonFlags : List String :=
  ["--output", "--zip", "--nicename", "--priority", "--quiet", "--persistent", "--background"]

/-- Embeds `flagsToString`. -/
def flagsToString (flags : List Flag) : List String := flags.map (fun f => f.long)

/-- Embeds `getFlagName`: the declared name is exposed with the given
namespacing prefix exactly when `--name` already occurs among the common
flags or the flags registered on the command so far. -/
def getFlagName (name pre : String) (flags : List Flag) : String :=
  let flaggedName := "--" ++ name
  if (commonFlags ++ flagsToString flags).contains flaggedName then pre ++ name
  else name

/-! ## The job-execution orchestrator -/

/-- The fields of `pipeline.Job` the orchestrator reads. -/
structure Job where
  id : String
  status : String
  deriving Repr, DecidableEq

/-- One unit of the message stream: an optional terminal error, the updated
status, and the text `msg.String()` renders. -/
structure Message where
  error : Option String
  status : String
  text : String
  deriving Repr, DecidableEq

/-- Embeds the `jobExecution` struct (minus the link, which the `World`
below stands for). -/
structure JobExec where
  req : JobRequest
  output : String
  verbose : Bool
  persistent : Bool
  zipped : Bool

/-- The externally observable interactions of one `run` invocation, in
order. -/
inductive Event where
  | printWarning
  | execute (req : JobRequest)
  | printJobSent (id : String)
  | storeId (id : String)
  | consumeMessage (m : Message)
  | printMessage (s : String)
  | results (id : String)
  | deleteJob (id : String)
  | printDeleted
  | printFinished (status : String)

/-- Outcomes of the external calls `run` makes: `link.Execute`, the
last-id write, `zipProcessor`, `link.Results`, the writer's `Close`, and
`link.Delete`. -/
structure World where
  executeResult : Except String (Job × List Message)
  storeResult : Except String Unit
  zipResult : Except String Unit
  resultsResult : Except String Unit
  closeResult : Except String Unit
  deleteResult : Except String Unit

/-- The `for msg := range messages` loop of `run`: each received message is
consumed; an error-bearing message terminates the run with its error, an
ordinary one is echoed when verbose and updates the tracked status.  Returns
the final status (or the error) and the events of the loop. -/
def msgLoop (verbose : Bool) : List Message → String → Except String String × List Event
  | [], status => (.ok status, [])
  | m :: rest, _ =>
    match m.error with
    | some e => (.error e, [.consumeMessage m])
    | none =>
      ((msgLoop verbose rest m.status).1,
       .consumeMessage m ::
         ((if verbose then [Event.printMessage m.text] else []) ++
           (msgLoop verbose rest m.status).2))

/-- The part of `run` from the message loop on: streaming, then — when the
final status is not `"ERROR"` and the job is not backgrounded — result
retrieval and, unless persistent, deletion. -/
def runStream (j : JobExec) (w : World) (job : Job) (messages : List Message)
    (tr : List Event) : Except String Unit × List Event :=
  match msgLoop j.verbose messages job.status with
  | (.error e, ltr) => (.error e, tr ++ ltr)
  | (.ok status, ltr) =>
    let tr := tr ++ ltr
    if status ≠ "ERROR" then
      if j.req.background = false then
        match w.zipResult with
        | .error e => (.error e, tr)
        | .ok _ =>
          match w.resultsResult with
          | .error e => (.error e, tr ++ [Event.results job.id])
          | .ok _ =>
            match w.closeResult with
            | .error e => (.error e, tr ++ [Event.results job.id])
            | .ok _ =>
              if j.persistent = false then
                match w.deleteResult with
                | .error e => (.error e, tr ++ [Event.results job.id, Event.deleteJob job.id])
                | .ok _ =>
                  (.ok (), tr ++ [Event.results job.id, Event.deleteJob job.id,
                    Event.printDeleted, Event.printFinished status])
              else (.ok (), tr ++ [Event.results job.id, Event.printFinished status])
      else (.ok (), tr)
    else (.ok (), tr)

/-- Embeds `jobExecution.run`: the output precondition, the background
warning, submission, conditional persistence of the job id, then
`runStream`. -/
def run (j : JobExec) (w : World) : Except String Unit × List Event :=
  if j.req.background = false ∧ j.output = "" then
    (.error "--output option is mandatory if the job is not running in the req.Background", [])
  else
    let warn := if j.req.background = true ∧ j.output ≠ "" then [Event.printWarning] else []
    let storeId := j.req.background || j.persistent
    match w.executeResult with
    | .error e => (.error e, warn ++ [Event.execute j.req])
    | .ok (job, messages) =>
      let tr1 := warn ++ [Event.execute j.req, Event.printJobSent job.id]
      if storeId then
        match w.storeResult with
        | .error e => (.error e, tr1 ++ [Event.storeId job.id])
        | .ok _ => runStream j w job messages (tr1 ++ [Event.storeId job.id])
      else runStream j w job messages tr1

/-- Modelled from the spec: `PipelineLink.Execute` lives in link.go, which is
not under src/.  Per the spec, a background submission's message stream is
closed without ever carrying a message, so the stream handed back for a
background request is empty. -/
def backgroundStreamEmpty (req : JobRequest) (messages : List Message) : Prop :=
  req.background = true → messages = []

/-! ## Last-job-id persistence -/

/-- The state of the last-id file at `LastIdPath`, together with failure
switches for the two file operations (`os.Create`+`Write` and
`ioutil.ReadFile`). -/
structure IdFile where
  content : Option String
  createFails : Bool
  readFails : Bool
  deriving Repr, DecidableEq

/-- Embeds `storeLastId`: create (truncating any previous content) and write
the id. -/
def storeLastId (id : String) (f : IdFile) : Except String IdFile :=
  if f.createFails then .error "create failed"
  else .ok { f with content := some id }

/-- Embeds `getLastId`: read the file's bytes back as the id. -/
def getLastId (f : IdFile) : Except String String :=
  if f.readFails then .error "read failed"
  else
    match f.content with
    | some s => .ok s
    | none => .error "open: no such file or directory"

/-! ## Concrete fixtures used by the witnesses -/

/-- A remote-mode environment (empty base path) on an OS whose path
separator is `'/'`. -/
def envRemote : Env :=
  { isLocal := false, cwd := "/cwd", sep := '/',
    stat := fun _ => none, matchString := fun _ _ => .ok false }

/-- A local-mode environment in which every stat reports a non-`IsNotExist`
failure (for example a permission error). -/
def envPermDenied : Env :=
  { isLocal := true, cwd := "/base", sep := '/',
    stat := fun _ => some { msg := "permission denied", notExist := false },
    matchString := fun _ _ => .ok false }

/-- A job execution with an empty output destination over a fresh request. -/
def jexecNoOutput : JobExec :=
  { req := newJobRequest, output := "", verbose := true, persistent := false, zipped := false }

/-- A background job execution over a fresh request. -/
def jexecBackground : JobExec :=
  { req := { newJobRequest with background := true }, output := "", verbose := true,
    persistent := false, zipped := false }

/-- A foreground, non-persistent job execution with an output folder. -/
def jexecForeground : JobExec :=
  { req := newJobRequest, output := "./out", verbose := true,
    persistent := false, zipped := false }

/-- A world whose submission succeeds with one ordinary message and whose
other calls all succeed. -/
def worldOneMsg : World :=
  { executeResult := .ok ({ id := "job-1", status := "IDLE" },
      [{ error := none, status := "DONE", text := "[INFO] working" }]),
    storeResult := .ok (), zipResult := .ok (), resultsResult := .ok (),
    closeResult := .ok (), deleteResult := .ok () }

/-- A world whose submission succeeds with an empty message stream. -/
def worldNoMsg : World :=
  { executeResult := .ok ({ id := "job-7", status := "IDLE" }, []),
    storeResult := .ok (), zipResult := .ok (), resultsResult := .ok (),
    closeResult := .ok (), deleteResult := .ok () }

/-! ## C1 -/

/-- C1: evaluation of the code at the failing input.  The handler for an
input whose exposed name carries the `i-` collision prefix does not strip
it: `strings.HasPrefix("i-", name)` has its arguments in the wrong order, so
the guard is false for `"i-output"` and the Inputs map ends up keyed by the
prefixed name, contradicting the claim (and the repository's own
`TestScriptToCommand`, which feeds `--i-source` and reads
`Inputs["source"]`). -/
theorem inputFunc_keeps_prefixed_key :
    strHasPre "i-" "i-output" = false ∧
    inputKey "i-output" = "i-output" ∧
    (inputFunc envRemote "i-output" "book.xml" newJobRequest).1.inputs "output" = [] ∧
    (inputFunc envRemote "i-output" "book.xml" newJobRequest).1.inputs "i-output" =
      [{ scheme := "", opq := "book.xml", host := "", path := "" }] ∧
    optionKey "x-output" = "x-output" ∧
    (optionFunc .XsAnyURI false envRemote "x-output" "v" newJobRequest).1.options "output" = [] ∧
    (optionFunc .XsAnyURI false envRemote "x-output" "v" newJobRequest).1.options "x-output" =
      ["v"] := by
  refine ⟨by decide, by decide, by decide, by decide, by decide, ?_, ?_⟩ <;>
    simp [optionFunc, optionKey, strHasPre, validateOption, newJobRequest]

/-! ## C3 -/

/-- C3: when the Background flag is false and the output destination is
empty, `run` returns the mandatory-output error with an empty event trace,
so `Execute` is never invoked and no job is created. -/
theorem run_requires_output (j : JobExec) (w : World)
    (hbg : j.req.background = false) (hout : j.output = "") :
    run j w =
      (.error "--output option is mandatory if the job is not running in the req.Background",
       []) := by
  simp [run, hbg, hout]

/-- Witness for C3 at a concrete execution and world. -/
theorem run_requires_output_witness :
    jexecNoOutput.req.background = false ∧ jexecNoOutput.output = "" ∧
    run jexecNoOutput worldOneMsg =
      (.error "--output option is mandatory if the job is not running in the req.Background",
       []) :=
  ⟨rfl, rfl, run_requires_output jexecNoOutput worldOneMsg rfl rfl⟩

/-! ## C8 -/

/-- C8: counterexample.  The declared name `data` is one of the eight
control argument names of the claim, yet `getFlagName` leaves it
unprefixed when no `--data` flag has been registered, because `commonFlags`
lists only seven entries and omits `--data`. -/
theorem getFlagName_data_unprefixed :
    getFlagName "data" "i-" [] = "data" ∧ ("data" : String) ≠ "i-data" := by
  refine ⟨by decide, by decide⟩

/-- C8 (amended): the seven names listed in `commonFlags` (`output`, `zip`,
`nicename`, `priority`, `quiet`, `persistent`, `background`) are always
exposed with the namespacing prefix; `data` is prefixed only when a
`--data` flag is already registered among the command's flags. -/
theorem getFlagName_collisions (name pre : String) (flags : List Flag) :
    (name ∈ ["output", "zip", "nicename", "priority", "quiet", "persistent", "background"] →
      getFlagName name pre flags = pre ++ name) ∧
    ("--data" ∈ flagsToString flags → getFlagName "data" pre flags = pre ++ "data") := by
  constructor
  · intro h
    fin_cases h <;> simp [getFlagName, commonFlags]
  · intro h
    have hc : (commonFlags ++ flagsToString flags).contains ("--" ++ "data") = true :=
      List.elem_eq_true_of_mem (List.mem_append_right _ h)
    simp only [getFlagName, hc, if_true]

/-- Witness for C8 (amended) at concrete names and flag lists. -/
theorem getFlagName_collisions_witness :
    ("output" ∈ ["output", "zip", "nicename", "priority", "quiet", "persistent", "background"]) ∧
    getFlagName "output" "i-" [] = "i-" ++ "output" ∧
    ("--data" ∈ flagsToString [{ long := "--data" }]) ∧
    getFlagName "data" "x-" [{ long := "--data" }] = "x-" ++ "data" :=
  ⟨by decide,
   (getFlagName_collisions "output" "i-" []).1 (by decide),
   by decide,
   (getFlagName_collisions "data" "x-" [{ long := "--data" }]).2 (by decide)⟩

/-! ## C7 -/

/-- C7: counterexample.  On an OS whose path separator is `'/'`
(`filepath.ToSlash` is the identity there), the backslash in `"a\b"` is not
normalized to a forward slash: the opaque reference keeps the input
unchanged, while the claim demands `"a/b"`. -/
theorem pathToUri_remote_backslash_kept :
    (pathToUri "a\\b" "" envRemote).1.opq = "a\\b" ∧ ("a\\b" : String) ≠ "a/b" := by
  refine ⟨by decide, by decide⟩

/-- C7 (amended): with an empty base path, resolution consults neither the
filesystem nor any other part of the environment except the OS path
separator and always succeeds, returning an opaque reference equal to the
input path with separator characters replaced by forward slashes (the
identity on a separator-`'/'` OS) and no other interpretation. -/
theorem pathToUri_remote (path : String) (env : Env) :
    pathToUri path "" env =
      ({ scheme := "", opq := filepathToSlash env.sep path, host := "", path := "" }, none) := by
  simp [pathToUri]

/-! ## C9 -/

/-- C9: a store followed by a read returns exactly the stored id whenever
both file operations succeed, and a second store overwrites the first
unconditionally. -/
theorem storeLastId_roundTrip (id id2 : String) (f f1 : IdFile)
    (hstore : storeLastId id f = .ok f1) :
    (f1.readFails = false → getLastId f1 = .ok id) ∧
    storeLastId id2 f1 = .ok { f1 with content := some id2 } := by
  unfold storeLastId at hstore ⊢
  by_cases h : f.createFails
  · simp [h] at hstore
  · simp [h] at hstore
    subst hstore
    constructor
    · intro hr
      have hr2 : f.readFails = false := hr
      simp [getLastId, hr2]
    · simp [h]

/-- Witness for C9 at a concrete id and file state. -/
theorem storeLastId_roundTrip_witness :
    storeLastId "job-42" { content := some "old", createFails := false, readFails := false } =
      .ok { content := some "job-42", createFails := false, readFails := false } ∧
    getLastId { content := some "job-42", createFails := false, readFails := false } =
      .ok "job-42" ∧
    storeLastId "job-43" { content := some "job-42", createFails := false, readFails := false } =
      .ok { content := some "job-43", createFails := false, readFails := false } :=
  ⟨rfl,
   (storeLastId_roundTrip "job-42" "job-43"
      { content := some "old", createFails := false, readFails := false }
      { content := some "job-42", createFails := false, readFails := false } rfl).1 rfl,
   (storeLastId_roundTrip "job-42" "job-43"
      { content := some "old", createFails := false, readFails := false }
      { content := some "job-42", createFails := false, readFails := false } rfl).2⟩

/-! ## Trace structure of the orchestrator -/

/-- Every event emitted by the message loop is a consumption or an echo. -/
theorem msgLoop_events (verbose : Bool) (msgs : List Message) (st : String) :
    ∀ e ∈ (msgLoop verbose msgs st).2,
      (∃ m, e = Event.consumeMessage m) ∨ (∃ s, e = Event.printMessage s) := by
  induction msgs generalizing st with
  | nil => simp [msgLoop]
  | cons m rest ih =>
    intro e he
    cases hm : m.error with
    | some err =>
      simp [msgLoop, hm] at he
      exact Or.inl ⟨m, he⟩
    | none =>
      simp only [msgLoop, hm] at he
      rcases List.mem_cons.mp he with h | h
      · exact Or.inl ⟨m, h⟩
      · rcases List.mem_append.mp h with h2 | h2
        · cases hv : verbose <;> simp [hv] at h2
          exact Or.inr ⟨m.text, h2⟩
        · exact ih m.status e h2

/-- The streaming tail of `run` only appends events after the trace it was
given, and never appends a store event. -/
theorem runStream_trace (j : JobExec) (w : World) (job : Job) (messages : List Message)
    (tr : List Event) :
    ∃ rest, (runStream j w job messages tr).2 = tr ++ rest ∧
      ∀ s, Event.storeId s ∉ rest := by
  have hev := msgLoop_events j.verbose messages job.status
  unfold runStream
  cases hml : msgLoop j.verbose messages job.status with
  | mk r ltr =>
  rw [hml] at hev
  have hns : ∀ s, Event.storeId s ∉ ltr := by
    intro s hs
    rcases hev _ hs with ⟨m, h⟩ | ⟨t, h⟩ <;> simp at h
  have key : ∀ (extra : List Event), (∀ t, Event.storeId t ∉ extra) →
      ∃ rest, ((tr ++ ltr) ++ extra = tr ++ rest ∧ ∀ s, Event.storeId s ∉ rest) := by
    intro extra hx
    refine ⟨ltr ++ extra, by simp, fun s hmem => ?_⟩
    rcases List.mem_append.mp hmem with h | h
    · exact hns s h
    · exact hx s h
  cases r with
  | error e => exact ⟨ltr, by simp, hns⟩
  | ok status =>
    simp only
    split
    · split
      · split
        · simpa using key [] (by simp)
        · split
          · exact key [Event.results job.id] (by intro t ht; simp at ht)
          · split
            · exact key [Event.results job.id] (by intro t ht; simp at ht)
            · split
              · split
                · exact key [Event.results job.id, Event.deleteJob job.id]
                    (by intro t ht; simp at ht)
                · exact key [Event.results job.id, Event.deleteJob job.id,
                    Event.printDeleted, Event.printFinished status]
                    (by intro t ht; simp at ht)
              · exact key [Event.results job.id, Event.printFinished status]
                  (by intro t ht; simp at ht)
      · simpa using key [] (by simp)
    · simpa using key [] (by simp)

/-! ## C2 -/

/-- C2: with the Background flag set, a successful submission whose stream
is (per the spec-modelled `Execute`) empty consumes no message: the run
ends right after the job id is reported and persisted, with no streaming,
result-retrieval or deletion event. -/
theorem run_background_no_stream (j : JobExec) (w : World) (job : Job)
    (messages : List Message)
    (hbg : j.req.background = true)
    (hexec : w.executeResult = .ok (job, messages))
    (hspec : backgroundStreamEmpty j.req messages)
    (hstore : w.storeResult = .ok ()) :
    run j w =
      (.ok (), (if j.output ≠ "" then [Event.printWarning] else []) ++
        [Event.execute j.req, Event.printJobSent job.id, Event.storeId job.id]) ∧
    ∀ m, Event.consumeMessage m ∉ (run j w).2 := by
  have hmsg : messages = [] := hspec hbg
  subst hmsg
  have h1 : run j w = (.ok (), (if j.output ≠ "" then [Event.printWarning] else []) ++
      [Event.execute j.req, Event.printJobSent job.id, Event.storeId job.id]) := by
    unfold run runStream
    rw [hexec]
    simp [hbg, hstore, msgLoop]
  refine ⟨h1, fun m hm => ?_⟩
  rw [h1] at hm
  simp only at hm
  rcases List.mem_append.mp hm with h | h
  · split at h <;> simp at h
  · simp at h

/-- Witness for C2 at a concrete background execution and world. -/
theorem run_background_no_stream_witness :
    jexecBackground.req.background = true ∧
    worldNoMsg.executeResult = .ok ({ id := "job-7", status := "IDLE" }, []) ∧
    backgroundStreamEmpty jexecBackground.req [] ∧
    worldNoMsg.storeResult = .ok () ∧
    (run jexecBackground worldNoMsg =
      (.ok (), (if jexecBackground.output ≠ "" then [Event.printWarning] else []) ++
        [Event.execute jexecBackground.req, Event.printJobSent "job-7",
         Event.storeId "job-7"]) ∧
     ∀ m, Event.consumeMessage m ∉ (run jexecBackground worldNoMsg).2) :=
  ⟨rfl, rfl, fun _ => rfl, rfl,
   run_background_no_stream jexecBackground worldNoMsg
     { id := "job-7", status := "IDLE" } [] rfl rfl (fun _ => rfl) rfl⟩

/-! ## C4 -/

/-- C4: after a successful submission, the id-store event appears in the
trace if and only if Background or persistent is set, and it sits directly
after the submission and report events, before every streaming event; no
store event occurs later in the trace. -/
theorem run_store_placement (j : JobExec) (w : World) (job : Job) (msgs : List Message)
    (hpre : ¬ (j.req.background = false ∧ j.output = ""))
    (hexec : w.executeResult = .ok (job, msgs)) :
    (∃ rest,
      (run j w).2 =
        (if j.req.background = true ∧ j.output ≠ "" then [Event.printWarning] else [])
          ++ [Event.execute j.req, Event.printJobSent job.id]
          ++ (if j.req.background || j.persistent then [Event.storeId job.id] else [])
          ++ rest ∧
      (∀ s, Event.storeId s ∉ rest) ∧
      (∀ m, Event.consumeMessage m ∉
        (if j.req.background = true ∧ j.output ≠ "" then [Event.printWarning] else [])
          ++ [Event.execute j.req, Event.printJobSent job.id]
          ++ (if j.req.background || j.persistent then [Event.storeId job.id] else []))) ∧
    (Event.storeId job.id ∈ (run j w).2 ↔ (j.req.background || j.persistent) = true) := by
  have hnoc : ∀ m, Event.consumeMessage m ∉
      (if j.req.background = true ∧ j.output ≠ "" then [Event.printWarning] else [])
        ++ [Event.execute j.req, Event.printJobSent job.id]
        ++ (if j.req.background || j.persistent then [Event.storeId job.id] else []) := by
    intro m hm
    rcases List.mem_append.mp hm with h | h
    · rcases List.mem_append.mp h with h2 | h2
      · split at h2 <;> simp at h2
      · simp at h2
    · split at h <;> simp at h
  unfold run
  rw [if_neg hpre, hexec]
  simp only
  by_cases hsid : (j.req.background || j.persistent) = true
  · rw [if_pos hsid]
    cases hst : w.storeResult with
    | error e =>
      refine ⟨⟨[], by simp [hsid], by simp, hnoc⟩, ?_⟩
      simp [hsid]
    | ok u =>
      obtain ⟨rest, htr, hns⟩ := runStream_trace j w job msgs
        (((if j.req.background = true ∧ j.output ≠ "" then [Event.printWarning] else [])
            ++ [Event.execute j.req, Event.printJobSent job.id])
          ++ [Event.storeId job.id])
      refine ⟨⟨rest, by rw [htr]; simp [hsid], hns, hnoc⟩, ?_⟩
      rw [htr]
      constructor
      · intro _
        exact hsid
      · intro _
        refine List.mem_append.mpr (Or.inl ?_)
        exact List.mem_append.mpr (Or.inr (by simp))
  · rw [if_neg hsid]
    obtain ⟨rest, htr, hns⟩ := runStream_trace j w job msgs
      ((if j.req.background = true ∧ j.output ≠ "" then [Event.printWarning] else [])
        ++ [Event.execute j.req, Event.printJobSent job.id])
    refine ⟨⟨rest, by rw [htr]; simp [hsid], hns, hnoc⟩, ?_⟩
    rw [htr]
    constructor
    · intro hmem
      exfalso
      rcases List.mem_append.mp hmem with h | h
      · rcases List.mem_append.mp h with h2 | h2
        · split at h2 <;> simp at h2
        · simp at h2
      · exact hns _ h
    · intro h
      exact absurd h hsid

/-- Witness for C4 at a concrete persistent foreground execution. -/
theorem run_store_placement_witness :
    ¬ ({ jexecForeground with persistent := true }.req.background = false ∧
        { jexecForeground with persistent := true }.output = "") ∧
    worldOneMsg.executeResult = .ok ({ id := "job-1", status := "IDLE" },
      [{ error := none, status := "DONE", text := "[INFO] working" }]) ∧
    ((∃ rest,
      (run { jexecForeground with persistent := true } worldOneMsg).2 =
        (if { jexecForeground with persistent := true }.req.background = true ∧
            { jexecForeground with persistent := true }.output ≠ ""
         then [Event.printWarning] else [])
          ++ [Event.execute { jexecForeground with persistent := true }.req,
              Event.printJobSent "job-1"]
          ++ (if { jexecForeground with persistent := true }.req.background ||
                { jexecForeground with persistent := true }.persistent
              then [Event.storeId "job-1"] else [])
          ++ rest ∧
      (∀ s, Event.storeId s ∉ rest) ∧
      (∀ m, Event.consumeMessage m ∉
        (if { jexecForeground with persistent := true }.req.background = true ∧
            { jexecForeground with persistent := true }.output ≠ ""
         then [Event.printWarning] else [])
          ++ [Event.execute { jexecForeground with persistent := true }.req,
              Event.printJobSent "job-1"]
          ++ (if { jexecForeground with persistent := true }.req.background ||
                { jexecForeground with persistent := true }.persistent
              then [Event.storeId "job-1"] else []))) ∧
    (Event.storeId "job-1" ∈ (run { jexecForeground with persistent := true } worldOneMsg).2 ↔
      ({ jexecForeground with persistent := true }.req.background ||
        { jexecForeground with persistent := true }.persistent) = true)) :=
  ⟨by simp [jexecForeground, newJobRequest], rfl,
   run_store_placement { jexecForeground with persistent := true } worldOneMsg
     { id := "job-1", status := "IDLE" }
     [{ error := none, status := "DONE", text := "[INFO] working" }]
     (by simp [jexecForeground, newJobRequest]) rfl⟩

/-! ## C10 -/

/-- C10: counterexample.  A stat failure that is not `IsNotExist` is indeed
discarded, but resolution does not always succeed afterwards: with a
permission error on a path that parses to an `http` URL, the final scheme
check fails, so the run of `pathToUri` errors even though the stat failure
was not a missing file. -/
theorem pathToUri_other_stat_failure_can_fail :
    envPermDenied.stat "http://h/x" = some { msg := "permission denied", notExist := false } ∧
    (pathToUri "http://h/x" "/base/" envPermDenied).2 = some "unexpected error" := by
  refine ⟨rfl, by decide⟩

/-- A local-mode environment whose stat reports every path as missing. -/
def envMissing : Env :=
  { isLocal := true, cwd := "/base", sep := '/',
    stat := fun _ => some { msg := "stat ./f: no such file or directory", notExist := true },
    matchString := fun _ _ => .ok false }

/-- The final check of `pathToUri`'s local branch, in isolation: the pair it
returns is error-free exactly when the resolved URL is an absolute `file:`
URL. -/
theorem schemeCheckPair_iff (u : URL) :
    ((if ¬u.scheme = "file" ∨ u.isAbs = false then (u, some "unexpected error")
      else (u, (none : Option String))).2 = none ↔
     ((if ¬u.scheme = "file" ∨ u.isAbs = false then (u, some "unexpected error")
       else (u, (none : Option String))).1.scheme = "file" ∧
      (if ¬u.scheme = "file" ∨ u.isAbs = false then (u, some "unexpected error")
       else (u, (none : Option String))).1.isAbs = true)) := by
  split
  · rename_i hcond
    constructor
    · intro h
      simp at h
    · intro h
      rcases hcond with hs | ha
      · exact absurd h.1 hs
      · rw [h.2] at ha
        simp at ha
  · rename_i hcond
    push_neg at hcond
    exact ⟨fun _ => ⟨hcond.1, by simpa using hcond.2⟩, fun _ => rfl⟩

/-- C10 (amended): in local mode the existence check errors exactly on an
`IsNotExist` stat failure; any other stat failure is discarded — the result
is the same as if the stat had succeeded — and resolution then succeeds
precisely when the resolved URL is an absolute `file:` URL (otherwise the
separate scheme check fails with "unexpected error"). -/
theorem pathToUri_local_stat (path basePath : String) (env : Env)
    (hbase : basePath ≠ "") :
    (∀ e, env.stat path = some e → e.notExist = true →
      (pathToUri path basePath env).2 = some e.msg) ∧
    (∀ e, env.stat path = some e → e.notExist = false →
      pathToUri path basePath env =
        pathToUri path basePath { env with stat := fun _ => none }) ∧
    (∀ e, env.stat path = some e → e.notExist = false →
      ((pathToUri path basePath env).2 = none ↔
        ((pathToUri path basePath env).1.scheme = "file" ∧
         (pathToUri path basePath env).1.isAbs = true))) := by
  refine ⟨?_, ?_, ?_⟩ <;> intro e he hne
  · simp [pathToUri, hbase, he, hne]
  · simp [pathToUri, hbase, he, hne]
  · simp only [pathToUri, hbase, ne_eq, not_false_iff, if_true, he, hne]
    split
    · rename_i hft
      exact absurd hft (by simp)
    · exact schemeCheckPair_iff _

/-- Witness for C10 (amended) at concrete environments: a missing file, and
a permission error whose discard makes the result agree with a successful
stat. -/
theorem pathToUri_local_stat_witness :
    ("/base/" : String) ≠ "" ∧
    (pathToUri "./f" "/base/" envMissing).2 = some "stat ./f: no such file or directory" ∧
    pathToUri "tmp/f" "/base/" envPermDenied =
      pathToUri "tmp/f" "/base/" { envPermDenied with stat := fun _ => none } ∧
    ((pathToUri "tmp/f" "/base/" envPermDenied).2 = none ↔
      ((pathToUri "tmp/f" "/base/" envPermDenied).1.scheme = "file" ∧
       (pathToUri "tmp/f" "/base/" envPermDenied).1.isAbs = true)) :=
  ⟨by decide,
   (pathToUri_local_stat "./f" "/base/" envMissing (by decide)).1
     { msg := "stat ./f: no such file or directory", notExist := true } rfl rfl,
   (pathToUri_local_stat "tmp/f" "/base/" envPermDenied (by decide)).2.1
     { msg := "permission denied", notExist := false } rfl rfl,
   (pathToUri_local_stat "tmp/f" "/base/" envPermDenied (by decide)).2.2
     { msg := "permission denied", notExist := false } rfl rfl⟩

/-! ## C6 -/

/-- The sequence loop of `optionFunc` validates the elements left to right,
appends each success immediately, and stops at the first failing element
keeping the appends already made. -/
theorem optionLoop_no_rollback (t : DataType) (env : Env) (key : String)
    (bad : String) (post : List String)
    (hfail : (validateOption bad t env).2 ≠ none) :
    ∀ (pre : List String) (req : JobRequest),
      (∀ e ∈ pre, (validateOption e t env).2 = none) →
      (optionLoop key t env (pre ++ bad :: post) req).1.options key =
          req.options key ++ pre.map (fun e => (validateOption e t env).1) ∧
      (optionLoop key t env (pre ++ bad :: post) req).2 =
          some (validationError key (validateOption bad t env).1
            (validateOption bad t env).2) := by
  intro pre
  induction pre with
  | nil =>
    intro req _hok
    cases hv : validateOption bad t env with
    | mk v1 e? =>
      cases e? with
      | none => rw [hv] at hfail; simp at hfail
      | some e => simp [optionLoop, hv]
  | cons a pre ih =>
    intro req hok
    have ha : (validateOption a t env).2 = none := hok a (by simp)
    cases hv : validateOption a t env with
    | mk v1 e? =>
      rw [hv] at ha
      simp only at ha
      subst ha
      simp only [List.cons_append, optionLoop, hv]
      have hrec := ih
        { req with options := fun k => if k = key then req.options k ++ [v1] else req.options k }
        (fun e he => hok e (by simp [he]))
      simp only [List.append_eq]
      refine ⟨?_, hrec.2⟩
      rw [hrec.1]
      simp [hv]

/-- C6: for a sequence-typed option whose comma-split value is some
successfully validating elements followed by a failing one, the handler
returns the validation error of the failing element while the normalized
values of the earlier elements remain appended, in order, under the
option's key. -/
theorem optionFunc_sequence_no_rollback (t : DataType) (env : Env) (name value : String)
    (req : JobRequest) (pre : List String) (bad : String) (post : List String)
    (hsplit : splitChar ',' value = pre ++ bad :: post)
    (hok : ∀ e ∈ pre, (validateOption e t env).2 = none)
    (hfail : (validateOption bad t env).2 ≠ none) :
    (optionFunc t true env name value req).1.options (optionKey name) =
        req.options (optionKey name) ++ pre.map (fun e => (validateOption e t env).1) ∧
    (optionFunc t true env name value req).2 =
        some (validationError (optionKey name) (validateOption bad t env).1
          (validateOption bad t env).2) := by
  unfold optionFunc
  rw [if_pos rfl, hsplit]
  exact optionLoop_no_rollback t env (optionKey name) bad post hfail pre req hok

/-- Witness for C6: `"true,x,false"` for a boolean sequence option keeps the
normalized `"true"` appended and reports the error for `"x"`. -/
theorem optionFunc_sequence_no_rollback_witness :
    splitChar ',' "true,x,false" = ["true"] ++ "x" :: ["false"] ∧
    (optionFunc .XsBoolean true envRemote "vals" "true,x,false" newJobRequest).1.options
        (optionKey "vals") =
      newJobRequest.options (optionKey "vals") ++
        ["true"].map (fun e => (validateOption e .XsBoolean envRemote).1) ∧
    (optionFunc .XsBoolean true envRemote "vals" "true,x,false" newJobRequest).2 =
      some (validationError (optionKey "vals")
        (validateOption "x" .XsBoolean envRemote).1
        (validateOption "x" .XsBoolean envRemote).2) :=
  ⟨by decide,
   (optionFunc_sequence_no_rollback .XsBoolean envRemote "vals" "true,x,false" newJobRequest
      ["true"] "x" ["false"] (by decide)
      (by intro e he; simp at he; subst he; simp [validateOption, parseBool, formatBool])
      (by simp [validateOption, parseBool])).1,
   (optionFunc_sequence_no_rollback .XsBoolean envRemote "vals" "true,x,false" newJobRequest
      ["true"] "x" ["false"] (by decide)
      (by intro e he; simp at he; subst he; simp [validateOption, parseBool, formatBool])
      (by simp [validateOption, parseBool])).2⟩

/-! ## C5 -/

/-- The Choice arm of `validateOption`, written over the plainly mapped
variant results. -/
theorem validateOption_choice_eq (value : String) (env : Env) (vs : List DataType) :
    validateOption value (.Choice vs) env =
      (match (choiceScan value (vs.map fun v => validateOption value v env)).2 with
       | some _ =>
         ((choiceScan value (vs.map fun v => validateOption value v env)).1,
          some ("does not match " ++ uncolor (optionTypeToString (.Choice vs))))
       | none => ((choiceScan value (vs.map fun v => validateOption value v env)).1, none)) := by
  rw [validateOption, List.attach_map_val vs (fun v => validateOption value v env)]

/-- `choiceScan` ends error-free exactly when the list is empty or holds a
successful pair. -/
theorem choiceScan_none_iff (value : String) (ps : List (String × Option String)) :
    (choiceScan value ps).2 = none ↔ ps = [] ∨ ∃ p ∈ ps, p.2 = none := by
  induction ps with
  | nil => simp [choiceScan]
  | cons p ps ih =>
    cases ps with
    | nil => simp [choiceScan]
    | cons q qs =>
      by_cases hp : p.2 = none
      · have h1 : choiceScan value (p :: q :: qs) = p := by simp [choiceScan, hp]
        rw [h1]
        exact iff_of_true hp (Or.inr ⟨p, by simp, hp⟩)
      · simp only [choiceScan, if_neg hp]
        rw [ih]
        constructor
        · rintro (h | ⟨r, hr, hr2⟩)
          · simp at h
          · exact Or.inr ⟨r, by simp [List.mem_cons.mp hr], hr2⟩
        · rintro (h | ⟨r, hr, hr2⟩)
          · simp at h
          · rcases List.mem_cons.mp hr with rfl | hr3
            · exact absurd hr2 hp
            · exact Or.inr ⟨r, hr3, hr2⟩

/-- `choiceScan` stops at the first successful pair. -/
theorem choiceScan_first_success (value : String) :
    ∀ (pre : List (String × Option String)) (good : String × Option String)
      (post : List (String × Option String)),
      (∀ p ∈ pre, p.2 ≠ none) → good.2 = none →
      choiceScan value (pre ++ good :: post) = good := by
  intro pre
  induction pre with
  | nil =>
    intro good post _ hg
    cases post with
    | nil => simp [choiceScan]
    | cons q qs => simp [choiceScan, hg]
  | cons a pre ih =>
    intro good post ha hg
    have ha2 : a.2 ≠ none := ha a (by simp)
    cases hrest : pre ++ good :: post with
    | nil => exact absurd hrest (by simp)
    | cons r rs =>
      simp only [List.cons_append, hrest, choiceScan, if_neg ha2]
      rw [← hrest]
      exact ih good post (fun p hp => ha p (by simp [hp])) hg

/-- When every pair fails, `choiceScan` ends holding the last pair. -/
theorem choiceScan_all_fail (value : String) :
    ∀ (ps : List (String × Option String)) (h : ps ≠ []),
      (∀ p ∈ ps, p.2 ≠ none) → choiceScan value ps = ps.getLast h := by
  intro ps
  induction ps with
  | nil => intro h; exact absurd rfl h
  | cons p ps ih =>
    intro h hall
    cases ps with
    | nil => simp [choiceScan, List.getLast]
    | cons q qs =>
      have hp : p.2 ≠ none := hall p (by simp)
      simp only [choiceScan, if_neg hp]
      rw [ih (by simp) (fun r hr => hall r (by simp [hr]))]
      simp [List.getLast_cons]

/-- C5 (amended): for a Choice with at least one variant, validation
succeeds exactly when some variant validates the value; decomposing the
variant list around the first succeeding variant, the normalized result is
that variant's normalization; and when every variant fails, the error is
the single aggregated message naming the rendered choice type (and the
result slot holds the last variant's attempt). -/
theorem validateOption_choice (value : String) (env : Env) (values : List DataType)
    (hne : values ≠ []) :
    ((validateOption value (.Choice values) env).2 = none ↔
      ∃ v ∈ values, (validateOption value v env).2 = none) ∧
    (∀ pre good post, values = pre ++ good :: post →
      (∀ v ∈ pre, (validateOption value v env).2 ≠ none) →
      (validateOption value good env).2 = none →
      validateOption value (.Choice values) env =
        ((validateOption value good env).1, none)) ∧
    ((∀ v ∈ values, (validateOption value v env).2 ≠ none) →
      validateOption value (.Choice values) env =
        ((validateOption value (values.getLast hne) env).1,
         some ("does not match " ++ uncolor (optionTypeToString (.Choice values))))) := by
  have heq := validateOption_choice_eq value env values
  refine ⟨?_, ?_, ?_⟩
  · rw [heq]
    have hiff := choiceScan_none_iff value (values.map fun v => validateOption value v env)
    cases hs : (choiceScan value (values.map fun v => validateOption value v env)).2 with
    | some e =>
      rw [hs] at hiff
      simp only [hs]
      constructor
      · intro hcontra
        simp at hcontra
      · rintro ⟨v, hv, hv2⟩
        have : (some e : Option String) = none := hiff.mpr
          (Or.inr ⟨validateOption value v env, List.mem_map_of_mem _ hv, hv2⟩)
        simp at this
    | none =>
      rw [hs] at hiff
      simp only [hs]
      rcases hiff.mp rfl with h | ⟨p, hp, hp2⟩
      · exact absurd (List.map_eq_nil_iff.mp h) hne
      · rcases List.mem_map.mp hp with ⟨v, hv, rfl⟩
        exact iff_of_true trivial ⟨v, hv, hp2⟩
  · intro pre good post hv hpre hgood
    subst hv
    have hscan : choiceScan value
        ((pre ++ good :: post).map fun v => validateOption value v env) =
        validateOption value good env := by
      rw [List.map_append, List.map_cons]
      exact choiceScan_first_success value _ _ _
        (fun p hp => by
          rcases List.mem_map.mp hp with ⟨v, hv2, rfl⟩
          exact hpre v hv2)
        hgood
    rw [heq, hscan, hgood]
  · intro hall
    have hmapne : (values.map fun v => validateOption value v env) ≠ [] := by
      simp [hne]
    have hscan : choiceScan value (values.map fun v => validateOption value v env) =
        (values.map fun v => validateOption value v env).getLast hmapne :=
      choiceScan_all_fail value _ hmapne
        (fun p hp => by
          rcases List.mem_map.mp hp with ⟨v, hv2, rfl⟩
          exact hall v hv2)
    rw [heq, hscan]
    rw [List.getLast_map]
    split
    · rfl
    · rename_i hnone
      exact absurd hnone (hall _ (List.getLast_mem _))

/-- C5: counterexample.  A Choice with an empty variant list validates every
value (the pre-loop state `err = nil` survives), although no listed variant
validates it — the claim's "only if" direction fails at `Choice []`. -/
theorem validateOption_choice_empty_succeeds :
    (validateOption "x" (.Choice []) envRemote).2 = none ∧
    ¬ ∃ v, v ∈ ([] : List DataType) ∧ (validateOption "x" v envRemote).2 = none := by
  constructor
  · rw [validateOption_choice_eq]
    simp [choiceScan]
  · simp

/-- Witness for C5 (amended) on `Choice [Value "a", XsBoolean]` at value
`"1"`: the first variant fails, the second normalizes to `"true"`. -/
theorem validateOption_choice_witness :
    (([DataType.Value "a", DataType.XsBoolean] : List DataType) ≠ []) ∧
    ((validateOption "1" (.Choice [.Value "a", .XsBoolean]) envRemote).2 = none ↔
      ∃ v ∈ ([DataType.Value "a", DataType.XsBoolean] : List DataType),
        (validateOption "1" v envRemote).2 = none) ∧
    validateOption "1" (.Choice [.Value "a", .XsBoolean]) envRemote =
      ((validateOption "1" DataType.XsBoolean envRemote).1, none) := by
  have h := validateOption_choice "1" envRemote [.Value "a", .XsBoolean] (by simp)
  refine ⟨by simp, h.1, ?_⟩
  exact h.2.1 [.Value "a"] .XsBoolean [] rfl
    (by intro v hv; simp at hv; subst hv; simp [validateOption])
    (by simp [validateOption, parseBool])

end PipelineCli
